import Mathlib

/-!
# BVH construction and the render loop of `mygl.cpp`

A shallow embedding of `compareXcoords` / `compareYcoords` / `compareZcoords`,
`MyGL::createBVHtree` and the sequential pixel loop of `MyGL::RaytraceScene`.

Bounding-volume coordinates are `float`s in the source, only ever compared; here they range
over an arbitrary linear order `α`. Colours are `float`s that are added and divided; here
they are rationals, rounded to the nearest `float` after every operation. `std::sort` is
the routine of libstdc++, followed statement by statement up to the first partition scan.
-/

namespace BVH

/-! ## Data model -/

/-- An axis-aligned bounding volume: `minBound` and `maxBound` indexed by the axis
(0 = x, 1 = y, 2 = z), as `boundingBox->maxBound[0]` in the source. -/
structure BoundingBox (α : Type) where
  minBound : Fin 3 → α
  maxBound : Fin 3 → α

/-- A scene object as `createBVHtree` sees it through a `Geometry*`: the object's identity
(`ident`, standing for the pointer) and the bounding volume it points to. -/
structure Geometry (α : Type) where
  ident : Nat
  boundingBox : BoundingBox α

/-- A `BVHnode*`: either `NULL` or a node with its four members, in the order of the
constructor call `BVHnode(NULL, NULL, objs[0]->boundingBox, objs[0])`. -/
inductive BVHnode (α : Type) where
  | null : BVHnode α
  | node (leftChild rightChild : BVHnode α) (boundingBox : BoundingBox α)
      (geom : Option (Geometry α)) : BVHnode α

/-- The ways a call can end without returning: an element access past the end of a list
(`objs[0]` on an empty `QList`), a member access through a null pointer, `std::sort` reading
past the end of its range, `std::sort` giving nothing on a long range, and the recursion
bound of the embedding used up. The first three are undefined behaviour in the source: no
error value is produced there, the embedding only records that the access takes place. -/
inductive Fault where
  | indexOutOfRange : Fault
  | nullPointer : Fault
  | sortOutOfRange : Fault
  | sortNoResult : Fault
  | outOfFuel : Fault

/-- What `createBVHtree` calls but neither `mygl.cpp` nor the standard library defines:
`BoundingBox::combineBoxes`, the bounding volume of a node made by `new BVHnode()`, and
`sortLong`, standing for the part of `std::sort` on a range of more than 16 elements that
comes after the first partition scan (it may not return a list). -/
structure Env (α : Type) where
  sortLong : (Geometry α → Geometry α → Bool) → List (Geometry α) →
    Except Fault (List (Geometry α))
  combineBoxes : BoundingBox α → BoundingBox α → BoundingBox α
  newBox : BoundingBox α

/-! ## The comparators -/

/-- The function `compareXcoords`: `-1` if the upper x bound of `a` is `<=` that of `b`, else
`1`. -/
def compareXcoords {α : Type} [LinearOrder α] (a b : Geometry α) : Int :=
  if a.boundingBox.maxBound 0 ≤ b.boundingBox.maxBound 0 then -1 else 1

/-- The function `compareYcoords`: the same test on axis 1. -/
def compareYcoords {α : Type} [LinearOrder α] (a b : Geometry α) : Int :=
  if a.boundingBox.maxBound 1 ≤ b.boundingBox.maxBound 1 then -1 else 1

/-- The function `compareZcoords`: the same test on axis 2. -/
def compareZcoords {α : Type} [LinearOrder α] (a b : Geometry α) : Int :=
  if a.boundingBox.maxBound 2 ≤ b.boundingBox.maxBound 2 then -1 else 1

/-- The conversion `std::sort` applies to the comparator's `int` result when it uses it as the
condition "a goes before b": every non-zero value is `true`. -/
def intToBool (r : Int) : Bool := r != 0

/-- The comparator `createBVHtree` hands to `std::sort` at recursion depth `depth`:
`glm::mod(depth, 3)` is 0 for the x axis, 1 for the y axis, anything else for the z axis. -/
def axisComparator {α : Type} [LinearOrder α] (depth : Nat) : Geometry α → Geometry α → Int :=
  if depth % 3 = 0 then compareXcoords
  else if depth % 3 = 1 then compareYcoords
  else compareZcoords

/-! ## The call to `std::sort` -/

/-- The inner loop of the insertion pass (`__unguarded_linear_insert`): `val` moves towards
the front past every element `next` with `comp(val, next)`. The part of the range before
`val` is given last element first, and so is the result. -/
def linearInsert {β : Type} (comp : β → β → Bool) (val : β) : List β → List β
  | [] => [val]
  | next :: rest =>
    if comp val next then next :: linearInsert comp val rest else val :: next :: rest

/-- One round of the insertion pass: `val` goes to the very front when `comp(val, first)`,
and is moved by `linearInsert` otherwise. -/
def insertStep {β : Type} (comp : β → β → Bool) (done : List β) (val : β) : List β :=
  match done with
  | [] => [val]
  | first :: _ =>
    if comp val first then val :: done else (linearInsert comp val done.reverse).reverse

/-- What `std::sort` does to a short range: the insertion pass (`__insertion_sort` of
libstdc++, all that runs on a range of at most 16 elements), for any comparator `comp`, also
one that is no ordering. -/
def insertionPass {β : Type} (comp : β → β → Bool) (l : List β) : List β :=
  l.foldl (insertStep comp) []

/-- The index that `__move_median_to_first(first, first + 1, mid, last - 1, comp)` exchanges
with the first element: one of `1`, `length / 2`, `length - 1`. -/
def medianIndex {β : Type} (comp : β → β → Bool) (l : List β) : Nat :=
  match l[1]?, l[l.length / 2]?, l[l.length - 1]? with
  | some a, some b, some c =>
    if comp a b then
      if comp b c then l.length / 2
      else if comp a c then l.length - 1
      else 1
    else if comp a c then 1
    else if comp b c then l.length - 1
    else l.length / 2
  | _, _, _ => 0

/-- The list after `iter_swap(first, first + k)`. -/
def swapFirst {β : Type} (l : List β) (k : Nat) : List β :=
  match l[0]?, l[k]? with
  | some x, some y => (l.set 0 y).set k x
  | _, _ => l

/-- The call `std::sort(begin, end, comp)` as libstdc++ runs it. Up to 16 elements only the
insertion pass runs. On a longer range `__introsort_loop` first moves a median to the front
as the pivot and `__unguarded_partition` scans upwards with
`while (comp(*first, *pivot)) ++first;`, a loop without an end test: when `comp` holds for
every element of the range the scan reads past the end and the call gives no list
(`sortOutOfRange`). When the scan stops inside the range the rest of the algorithm is
`sortLong`. -/
def stdSort {β : Type} (sortLong : (β → β → Bool) → List β → Except Fault (List β))
    (comp : β → β → Bool) (l : List β) : Except Fault (List β) :=
  if l.length ≤ 16 then Except.ok (insertionPass comp l)
  else
    match swapFirst l (medianIndex comp l) with
    | [] => Except.error Fault.sortOutOfRange
    | pivot :: rest =>
      if rest.all (fun e => comp e pivot) then Except.error Fault.sortOutOfRange
      else sortLong comp l

/-! ## The split point -/

/-- The value of `(float)n` for an `int` `n >= 0`. A `float` keeps 24 significant bits: counts
below `2^24` convert exactly, larger ones are rounded to the nearest multiple of `2^e`
(`e` the number of bits that do not fit), ties going to the even multiple. The result is
always a whole number, returned as such. -/
def toFloat (n : Nat) : Nat :=
  if n < 2 ^ 24 then n
  else
    let e := Nat.log 2 n - 23
    let q := n / 2 ^ e
    let r := n % 2 ^ e
    if 2 * r < 2 ^ e then q * 2 ^ e
    else if 2 * r = 2 ^ e ∧ q % 2 = 0 then q * 2 ^ e
    else (q + 1) * 2 ^ e

/-- The `int` that `floor((float)n/2.0f)` converts to (halving a `float` is exact). -/
def halfFloor (n : Nat) : Nat := toFloat n / 2

/-- The `int` that `ceil((float)n/2.0f)` converts to. -/
def halfCeil (n : Nat) : Nat := (toFloat n + 1) / 2

/-- The call `QList::mid(pos, length)`: the elements from index `pos` on, at most `length` of
them (fewer when the list ends first). -/
def mid {β : Type} (l : List β) (pos length : Nat) : List β := (l.drop pos).take length

/-! ## `MyGL::createBVHtree` -/

/-- The list `objs` after the `std::sort` call of `createBVHtree`, when that call returns. -/
def sortedObjs {α : Type} [LinearOrder α] (L : Env α) (objs : List (Geometry α)) (depth : Nat) :
    Except Fault (List (Geometry α)) :=
  stdSort L.sortLong (fun a b => intToBool (axisComparator depth a b)) objs

/-- The list `leftHalfObjs(objs.mid(0, floor((float)objs.length()/2.0f)))`, `objs` being the
sorted list. -/
def leftHalfObjs {β : Type} (objs : List β) : List β :=
  mid objs 0 (halfFloor objs.length)

/-- The list `rightHalfObjs(objs.mid(floor((float)objs.length()/2.0f),
ceil((float)objs.length()/2.0f)))`, `objs` being the sorted list. -/
def rightHalfObjs {β : Type} (objs : List β) : List β :=
  mid objs (halfFloor objs.length) (halfCeil objs.length)

/-- Modelled from the spec: the node made by `new BVHnode()`, whose constructor is not in
`mygl.cpp`. An interior node holds "no geometry", so the fresh node has none, no children
either, and the bounding volume `L.newBox`. -/
def newNode {α : Type} (L : Env α) : BVHnode α :=
  BVHnode.node BVHnode.null BVHnode.null L.newBox none

/-- The loop `for (i...) root->boundingBox->combineBoxes(objs[i]->boundingBox)`: the node's
bounding volume `box` after every object's volume has been combined into it, in list order. -/
def overallBox {α : Type} (L : Env α) (box : BoundingBox α) (objs : List (Geometry α)) :
    BoundingBox α :=
  objs.foldl (fun b o => L.combineBoxes b o.boundingBox) box

/-- The bounding volume of a node (`none` for `NULL`). -/
def BVHnode.boxOf {α : Type} : BVHnode α → Option (BoundingBox α)
  | BVHnode.null => none
  | BVHnode.node _ _ b _ => some b

/-- The union of two boxes, the smallest box containing both: componentwise minimum of the
lower bounds and maximum of the upper bounds. -/
def BoundingBox.union {α : Type} [LinearOrder α] (b o : BoundingBox α) : BoundingBox α :=
  { minBound := fun i => min (b.minBound i) (o.minBound i)
    maxBound := fun i => max (b.maxBound i) (o.maxBound i) }

/-- Modelled from the spec: the call `root->boundingBox->create()` that ends `createBVHtree`,
made once both children are attached; `BoundingBox::create` is not under `src/`. The spec has
the builder, at this point, "recompute this node's bounding volume as the union of the two
children's boxes". `current` is the volume the combining loop left in the node, kept when a
child has no volume to offer. -/
def recomputeBox {α : Type} [LinearOrder α] (current : BoundingBox α) (l r : BVHnode α) :
    BoundingBox α :=
  match l.boxOf, r.boxOf with
  | some lb, some rb => lb.union rb
  | _, _ => current

/-- The branch `objs.count() <= 1`: `return new BVHnode(NULL, NULL, objs[0]->boundingBox,
objs[0])`. The source does not test for the empty list: there `objs[0]` is an access past the
end (`indexOutOfRange`). -/
def leafNode {α : Type} (objs : List (Geometry α)) : Except Fault (BVHnode α) :=
  match objs[0]? with
  | none => Except.error Fault.indexOutOfRange
  | some g => Except.ok (BVHnode.node BVHnode.null BVHnode.null g.boundingBox (some g))

/-- The function `MyGL::createBVHtree(root, objs, depth)` with a bound `fuel` on the nesting
of its recursive calls. The statements come in the order of the source: the test
`objs.count() <= 1` (whatever `fuel` is), the combining loop through `root->boundingBox`,
`std::sort`, the split, the two recursive calls, `create()`. The node keeps its `geom` and
gets the two subtrees as children. -/
def createBVHtreeFuel {α : Type} [LinearOrder α] (L : Env α) :
    Nat → BVHnode α → List (Geometry α) → Nat → Except Fault (BVHnode α)
  | 0, _, objs, _ => if objs.length ≤ 1 then leafNode objs else Except.error Fault.outOfFuel
  | fuel + 1, root, objs, depth =>
    if objs.length ≤ 1 then leafNode objs
    else
      match root with
      | BVHnode.null => Except.error Fault.nullPointer
      | BVHnode.node _ _ box geom =>
        match sortedObjs L objs depth with
        | Except.error e => Except.error e
        | Except.ok sorted =>
          match createBVHtreeFuel L fuel (newNode L) (leftHalfObjs sorted) (depth + 1) with
          | Except.error e => Except.error e
          | Except.ok l =>
            match createBVHtreeFuel L fuel (newNode L) (rightHalfObjs sorted) (depth + 1) with
            | Except.error e => Except.error e
            | Except.ok r =>
              Except.ok (BVHnode.node l r (recomputeBox (overallBox L box objs) l r) geom)

/-- The function `MyGL::createBVHtree(root, objs, depth)`. Each nested call works on a shorter
list, so `objs.length` levels of nesting are always enough. -/
def createBVHtree {α : Type} [LinearOrder α] (L : Env α) (root : BVHnode α)
    (objs : List (Geometry α)) (depth : Nat) : Except Fault (BVHnode α) :=
  createBVHtreeFuel L objs.length root objs depth

/-! ## Observing a tree -/

/-- Whether the pointer is `NULL`. -/
def BVHnode.isNull {α : Type} : BVHnode α → Bool
  | BVHnode.null => true
  | BVHnode.node _ _ _ _ => false

/-- Number of leaves: nodes with both children `NULL`. -/
def BVHnode.numLeaves {α : Type} : BVHnode α → Nat
  | BVHnode.null => 0
  | BVHnode.node l r _ _ =>
    if l.isNull && r.isNull then 1 else l.numLeaves + r.numLeaves

/-- The geometries referenced by the leaves, left to right. -/
def BVHnode.leafGeoms {α : Type} : BVHnode α → List (Geometry α)
  | BVHnode.null => []
  | BVHnode.node l r _ g =>
    if l.isNull && r.isNull then g.toList else l.leafGeoms ++ r.leafGeoms

/-- Number of nodes on the longest path from this node down (0 for `NULL`). -/
def BVHnode.levels {α : Type} : BVHnode α → Nat
  | BVHnode.null => 0
  | BVHnode.node l r _ _ => 1 + max l.levels r.levels

/-- Height: number of edges on the longest root-to-leaf path. -/
def BVHnode.height {α : Type} (t : BVHnode α) : Nat := t.levels - 1

/-- Every node of the tree, the root first (a `NULL` pointer is no node). -/
def BVHnode.nodes {α : Type} : BVHnode α → List (BVHnode α)
  | BVHnode.null => []
  | BVHnode.node l r b g => BVHnode.node l r b g :: (l.nodes ++ r.nodes)

/-- The node invariant, for one node: a leaf (a geometry reference, both children `NULL`) or an
interior node (no geometry reference, both children non-`NULL`). -/
def BVHnode.leafOrInterior {α : Type} : BVHnode α → Bool
  | BVHnode.null => false
  | BVHnode.node l r _ g =>
    (l.isNull && r.isNull && g.isSome) || (!l.isNull && !r.isNull && g.isNone)

/-- The children of a node that are not `NULL`. -/
def BVHnode.children {α : Type} : BVHnode α → List (BVHnode α)
  | BVHnode.null => []
  | BVHnode.node l r _ _ => (if l.isNull then [] else [l]) ++ (if r.isNull then [] else [r])

/-- One box contains another: on every axis its lower bound is `<=` and its upper bound is
`>=` the other's. -/
def BoundingBox.contains {α : Type} [LinearOrder α] (b o : BoundingBox α) : Prop :=
  ∀ i : Fin 3, b.minBound i ≤ o.minBound i ∧ o.maxBound i ≤ b.maxBound i

/-- The recursion of `createBVHtree` as a relation: `Built L root objs depth t` says that the
call on `root`, `objs`, `depth` returns the tree `t`. A one-element list gives a leaf; a list
of two or more, once `std::sort` has returned, gives `root` with the trees of the two halves
attached. -/
inductive Built {α : Type} [LinearOrder α] (L : Env α) :
    BVHnode α → List (Geometry α) → Nat → BVHnode α → Prop
  | leaf (root : BVHnode α) (g : Geometry α) (depth : Nat) :
      Built L root [g] depth (BVHnode.node BVHnode.null BVHnode.null g.boundingBox (some g))
  | interior (l0 r0 : BVHnode α) (box : BoundingBox α) (geom : Option (Geometry α))
      (objs sorted : List (Geometry α)) (depth : Nat) (l r : BVHnode α) :
      2 ≤ objs.length →
      sortedObjs L objs depth = Except.ok sorted →
      Built L (newNode L) (leftHalfObjs sorted) (depth + 1) l →
      Built L (newNode L) (rightHalfObjs sorted) (depth + 1) r →
      Built L (BVHnode.node l0 r0 box geom) objs depth
        (BVHnode.node l r (recomputeBox (overallBox L box objs) l r) geom)

/-! ## Sample data -/

/-- The cube `[lo, hi]^3`. -/
def cube (lo hi : Int) : BoundingBox Int :=
  { minBound := fun _ => lo, maxBound := fun _ => hi }

/-- A sample environment over integer coordinates: `combineBoxes` is the union, a fresh
node's box is the point at the origin, and `sortLong` gives nothing (`createBVHtree` never
gets that far: its comparator holds for every pair). -/
def originEnv : Env Int where
  sortLong := fun _ _ => Except.error Fault.sortNoResult
  combineBoxes := BoundingBox.union
  newBox := cube 0 0

/-- Sample object 1, the cube `[1, 2]^3`. -/
def geomLow : Geometry Int := { ident := 1, boundingBox := cube 1 2 }

/-- Sample object 2, the cube `[3, 4]^3`. -/
def geomHigh : Geometry Int := { ident := 2, boundingBox := cube 3 4 }

/-- Sample object 3, a zero-extent volume: the point `(5, 5, 5)`. -/
def geomPoint : Geometry Int := { ident := 3, boundingBox := cube 5 5 }

/-- Sample object 4, the cube `[0, 2]^3`: the same upper bounds as `geomLow`. -/
def geomLowTwin : Geometry Int := { ident := 4, boundingBox := cube 0 2 }

/-- Seventeen sample objects, the cubes `[i, i + 1]^3` for `i` from 0 to 16, already in
ascending order of every bound. -/
def seventeenGeoms : List (Geometry Int) :=
  (List.range 17).map fun i => { ident := i, boundingBox := cube i (i + 1) }

/-! ## The render loop of `MyGL::RaytraceScene` -/

/-- A `float` value: `some q` for a finite number `q`, `none` for an infinity or a NaN. The
sign of a zero is not kept. -/
abbrev F32 : Type := Option ℚ

/-- The nearest integer, a tie going to the even one. -/
def roundToEven (x : ℚ) : Int :=
  if x - ⌊x⌋ < 1 / 2 then ⌊x⌋
  else if 1 / 2 < x - ⌊x⌋ then ⌊x⌋ + 1
  else if ⌊x⌋ % 2 = 0 then ⌊x⌋
  else ⌊x⌋ + 1

/-- The `float` an exact result `x` is rounded to (IEEE 754 binary32, round to nearest, ties
to even): 24 significant bits, the last one no finer than `2^-149`; a rounded magnitude of
`2^128` or more is an infinity. -/
def roundF32 (x : ℚ) : F32 :=
  if x = 0 then some 0
  else
    let e := max (Int.log 2 |x|) (-126)
    let ulp : ℚ := 2 ^ (e - 23)
    let y := (roundToEven (x / ulp) : ℚ) * ulp
    if |y| < 2 ^ 128 then some y else none

/-- The `float` sum `a + b`: the exact sum rounded; not finite as soon as an operand is
not. -/
def F32.add (a b : F32) : F32 :=
  match a, b with
  | some p, some q => roundF32 (p + q)
  | _, _ => none

/-- The `float` quotient `a / (float)k` for an `int` count `k`: the exact quotient by the
converted count, rounded; not finite for `k = 0` (`0/0` is a NaN, anything else over `0` an
infinity) or when `a` is not finite. -/
def F32.divCount (a : F32) (k : Nat) : F32 :=
  match a with
  | some p => if k = 0 then none else roundF32 (p / (toFloat k : ℚ))
  | none => none

/-- A value that a `float` can hold: not finite, or `m * 2^k` with `|m| < 2^24` and
`-149 <= k <= 104`. -/
def IsF32 : F32 → Prop
  | none => True
  | some q => ∃ m k : ℤ, |m| < 2 ^ 24 ∧ -149 ≤ k ∧ k ≤ 104 ∧ q = (m : ℚ) * 2 ^ k

/-- A `glm::vec3` colour: three `float`s. -/
abbrev Vec3 : Type := F32 × F32 × F32

/-- The colour `glm::vec3(0.0f)`. -/
def Vec3.zero : Vec3 := (some 0, some 0, some 0)

/-- The sum `a + b` of two `vec3`, component by component. -/
def Vec3.add (a b : Vec3) : Vec3 := (F32.add a.1 b.1, F32.add a.2.1 b.2.1, F32.add a.2.2 b.2.2)

/-- The quotient `v / (float)k` of a `vec3` by a converted count: each component is
divided. -/
def Vec3.divCount (v : Vec3) (k : Nat) : Vec3 :=
  (F32.divCount v.1 k, F32.divCount v.2.1 k, F32.divCount v.2.2 k)

/-- What the render loop reads and calls but `mygl.cpp` does not define: the camera's `width`
and `height`, `pixel_sampler->GetSamples(i, j)` (a list of `vec2`), `camera.Raycast(x, y)` and
`integrator.TraceRay(ray, depth)`, whose result is a `vec3` of `float`s. -/
structure RenderEnv (Ray : Type) where
  width : Nat
  height : Nat
  GetSamples : Nat → Nat → List (F32 × F32)
  Raycast : F32 → F32 → Ray
  TraceRay : Ray → Nat → Vec3
  TraceRay_float : ∀ r d,
    IsF32 (TraceRay r d).1 ∧ IsF32 (TraceRay r d).2.1 ∧ IsF32 (TraceRay r d).2.2

/-- The film: the grid `pixels[i][j]`, and for each cell the number of assignments made to
it (kept only to state that a cell is written once). -/
structure Film where
  pixels : Nat → Nat → Vec3
  writes : Nat → Nat → Nat

/-- The assignment `scene.film.pixels[i][j] = c`. -/
def Film.set (f : Film) (i j : Nat) (c : Vec3) : Film :=
  { pixels := fun a b => if a = i ∧ b = j then c else f.pixels a b
    writes := fun a b => if a = i ∧ b = j then f.writes a b + 1 else f.writes a b }

/-- The first inner loop: `sampledColors` once every sample of pixel `(i, j)` has been turned
into a ray by `Raycast` and traced by `TraceRay(ray, 0)`. -/
def sampledColors {Ray : Type} (R : RenderEnv Ray) (i j : Nat) : List Vec3 :=
  (R.GetSamples i j).map fun s => R.TraceRay (R.Raycast s.1 s.2) 0

/-- The second inner loop and the division: `avgColor` starts at `vec3(0.0f)`, every sampled
colour is added to it in turn, and the sum is divided by `(float)sampledColors.size()`. -/
def avgColor {Ray : Type} (R : RenderEnv Ray) (i j : Nat) : Vec3 :=
  Vec3.divCount ((sampledColors R i j).foldl Vec3.add Vec3.zero) (sampledColors R i j).length

/-- The loop over `j` for a fixed column `i`: `pixels[i][j] = avgColor` for `j` from 0 up to
`height`. -/
def renderColumn {Ray : Type} (R : RenderEnv Ray) (i : Nat) (film : Film) : Film :=
  (List.range R.height).foldl (fun f j => f.set i j (avgColor R i j)) film

/-- The sequential render loop of `RaytraceScene`: the loop over `i` from 0 up to `width`
around the loop over `j`. -/
def raytraceLoop {Ray : Type} (R : RenderEnv Ray) (film : Film) : Film :=
  (List.range R.width).foldl (fun f i => renderColumn R i f) film

/-- The exact sum of two values, without rounding. -/
def F32.exactAdd (a b : F32) : F32 :=
  match a, b with
  | some p, some q => some (p + q)
  | _, _ => none

/-- The exact quotient by a count, without rounding. -/
def F32.exactDiv (a : F32) (k : Nat) : F32 :=
  match a with
  | some p => if k = 0 then none else some (p / (k : ℚ))
  | none => none

/-- The arithmetic mean `(1/k) * sum` of a list of colours as the claim words it, taken in
exact arithmetic, component by component. -/
def exactMean (cs : List Vec3) : Vec3 :=
  (F32.exactDiv ((cs.map fun c => c.1).foldl F32.exactAdd (some 0)) cs.length,
    F32.exactDiv ((cs.map fun c => c.2.1).foldl F32.exactAdd (some 0)) cs.length,
    F32.exactDiv ((cs.map fun c => c.2.2).foldl F32.exactAdd (some 0)) cs.length)

/-- A sample render setting: a 2 by 3 image, two samples per pixel (the pixel's corner, and
the point half a pixel to its right), a ray that is the sample itself, and a colour that is
white for a ray through a corner with `x = 0` and black otherwise. -/
def sampleRender : RenderEnv (F32 × F32) where
  width := 2
  height := 3
  GetSamples := fun i j => [(some (i : ℚ), some (j : ℚ)), (some ((i : ℚ) + 1 / 2), some (j : ℚ))]
  Raycast := fun x y => (x, y)
  TraceRay := fun r _ => if r.1 = some 0 then (some 1, some 1, some 1) else Vec3.zero
  TraceRay_float := by
    intro r d
    have h1 : IsF32 (some 1) := ⟨1, 0, by norm_num, by norm_num, by norm_num, by norm_num⟩
    have h0 : IsF32 (some 0) := ⟨0, 0, by norm_num, by norm_num, by norm_num, by norm_num⟩
    by_cases h : r.1 = some 0
    · simp only [h, if_true]
      exact ⟨h1, h1, h1⟩
    · simp only [h, if_false]
      exact ⟨h0, h0, h0⟩

/-- A render setting with three samples in its one pixel, the first of colour `(1, 1, 1)`,
the other two black. -/
def thirdsRender : RenderEnv (F32 × F32) where
  width := 1
  height := 1
  GetSamples := fun _ _ => [(some 0, some 0), (some (1 / 2), some 0), (some 0, some (1 / 2))]
  Raycast := fun x y => (x, y)
  TraceRay := fun r _ =>
    if r = (some 0, some 0) then (some 1, some 1, some 1) else Vec3.zero
  TraceRay_float := by
    intro r d
    have h1 : IsF32 (some 1) := ⟨1, 0, by norm_num, by norm_num, by norm_num, by norm_num⟩
    have h0 : IsF32 (some 0) := ⟨0, 0, by norm_num, by norm_num, by norm_num, by norm_num⟩
    by_cases h : r = (some 0, some 0)
    · simp only [h, if_true]
      exact ⟨h1, h1, h1⟩
    · simp only [h, if_false]
      exact ⟨h0, h0, h0⟩

/-- A film with every cell black and not yet written. -/
def blankFilm : Film := { pixels := fun _ _ => Vec3.zero, writes := fun _ _ => 0 }

/-! ## The comparator holds for every pair, and what `std::sort` makes of it -/

/-- Whatever the depth, the condition `std::sort` gets from `createBVHtree` is `true` for
every pair. -/
theorem axisComparator_true {α : Type} [LinearOrder α] (depth : Nat) (a b : Geometry α) :
    intToBool (axisComparator depth a b) = true := by
  unfold axisComparator
  split_ifs
  · unfold compareXcoords; split <;> decide
  · unfold compareYcoords; split <;> decide
  · unfold compareZcoords; split <;> decide

/-- The sorted list does not depend on the bounds or on the axis: it is what `std::sort`
makes of the list under the condition that is `true` everywhere. -/
theorem sortedObjs_eq_sort_true {α : Type} [LinearOrder α] (L : Env α)
    (objs : List (Geometry α)) (depth : Nat) :
    sortedObjs L objs depth = stdSort L.sortLong (fun _ _ => true) objs := by
  unfold sortedObjs
  congr 1
  funext a b
  exact axisComparator_true depth a b

/-- Under a condition that holds for every pair, `std::sort` runs the insertion pass on up to
16 elements and reads past the end of any longer range. -/
theorem stdSort_true {β : Type} (sortLong : (β → β → Bool) → List β → Except Fault (List β))
    (l : List β) :
    stdSort sortLong (fun _ _ => true) l =
      if l.length ≤ 16 then Except.ok (insertionPass (fun _ _ => true) l)
      else Except.error Fault.sortOutOfRange := by
  unfold stdSort
  split_ifs with h
  · rfl
  · split
    · rfl
    · simp

theorem sortedObjs_short {α : Type} [LinearOrder α] (L : Env α) (objs : List (Geometry α))
    (depth : Nat) (h : objs.length ≤ 16) :
    sortedObjs L objs depth = Except.ok (insertionPass (fun _ _ => true) objs) := by
  rw [sortedObjs_eq_sort_true, stdSort_true, if_pos h]

theorem sortedObjs_long {α : Type} [LinearOrder α] (L : Env α) (objs : List (Geometry α))
    (depth : Nat) (h : 16 < objs.length) :
    sortedObjs L objs depth = Except.error Fault.sortOutOfRange := by
  rw [sortedObjs_eq_sort_true, stdSort_true, if_neg (by omega)]

theorem sortedObjs_ok {α : Type} [LinearOrder α] {L : Env α} {objs sorted : List (Geometry α)}
    {depth : Nat} (h : sortedObjs L objs depth = Except.ok sorted) :
    objs.length ≤ 16 ∧ sorted = insertionPass (fun _ _ => true) objs := by
  by_cases hlen : objs.length ≤ 16
  · rw [sortedObjs_short L objs depth hlen] at h
    exact ⟨hlen, (Except.ok.inj h).symm⟩
  · rw [sortedObjs_long L objs depth (by omega)] at h
    exact absurd h (by simp)

/-! ## The insertion pass rearranges -/

theorem linearInsert_perm {β : Type} (comp : β → β → Bool) (v : β) (rp : List β) :
    List.Perm (linearInsert comp v rp) (v :: rp) := by
  induction rp with
  | nil => exact List.Perm.refl _
  | cons y ys ih =>
    simp only [linearInsert]
    split
    · exact (List.Perm.cons y ih).trans (List.Perm.swap v y ys)
    · exact List.Perm.refl _

theorem insertStep_perm {β : Type} (comp : β → β → Bool) (p : List β) (x : β) :
    List.Perm (insertStep comp p x) (x :: p) := by
  cases p with
  | nil => exact List.Perm.refl _
  | cons y ys =>
    simp only [insertStep]
    split
    · exact List.Perm.refl _
    · exact (List.reverse_perm _).trans
        ((linearInsert_perm comp x _).trans (List.Perm.cons x (List.reverse_perm _)))

theorem insertionPass_perm {β : Type} (comp : β → β → Bool) (l : List β) :
    List.Perm (insertionPass comp l) l := by
  have hfold : ∀ (xs acc : List β),
      List.Perm (xs.foldl (insertStep comp) acc) (acc ++ xs) := by
    intro xs
    induction xs with
    | nil => intro acc; simp
    | cons x xs ih =>
      intro acc
      rw [List.foldl_cons]
      refine (ih _).trans ?_
      refine (List.Perm.append_right xs (insertStep_perm comp acc x)).trans ?_
      exact (List.perm_middle).symm
  simpa [insertionPass] using hfold l []

theorem sortedObjs_perm {α : Type} [LinearOrder α] {L : Env α} {objs sorted : List (Geometry α)}
    {depth : Nat} (h : sortedObjs L objs depth = Except.ok sorted) :
    List.Perm sorted objs := by
  rw [(sortedObjs_ok h).2]
  exact insertionPass_perm _ objs

theorem sortedObjs_length {α : Type} [LinearOrder α] {L : Env α}
    {objs sorted : List (Geometry α)} {depth : Nat}
    (h : sortedObjs L objs depth = Except.ok sorted) : sorted.length = objs.length :=
  (sortedObjs_perm h).length_eq

/-! ## The two halves -/

theorem toFloat_of_lt {n : Nat} (h : n < 2 ^ 24) : toFloat n = n := by
  unfold toFloat
  rw [if_pos h]

theorem halfFloor_small {n : Nat} (h : n ≤ 16) : halfFloor n = n / 2 := by
  rw [halfFloor, toFloat_of_lt (lt_of_le_of_lt h (by norm_num))]

theorem halfCeil_small {n : Nat} (h : n ≤ 16) : halfCeil n = (n + 1) / 2 := by
  rw [halfCeil, toFloat_of_lt (lt_of_le_of_lt h (by norm_num))]

/-- On a list of at most 16 elements the two halves are the list cut at `floor(n/2)`. -/
theorem halves_small {β : Type} (s : List β) (h : s.length ≤ 16) :
    leftHalfObjs s = s.take (s.length / 2) ∧ rightHalfObjs s = s.drop (s.length / 2) ∧
    (leftHalfObjs s).length = s.length / 2 ∧
    (rightHalfObjs s).length = (s.length + 1) / 2 ∧
    leftHalfObjs s ++ rightHalfObjs s = s := by
  have h1 : leftHalfObjs s = s.take (s.length / 2) := by
    simp only [leftHalfObjs, mid, List.drop_zero, halfFloor_small h]
  have h2 : rightHalfObjs s = s.drop (s.length / 2) := by
    simp only [rightHalfObjs, mid, halfFloor_small h, halfCeil_small h]
    apply List.take_of_length_le
    rw [List.length_drop]
    omega
  refine ⟨h1, h2, ?_, ?_, ?_⟩
  · rw [h1, List.length_take]
    omega
  · rw [h2, List.length_drop]
    omega
  · rw [h1, h2, List.take_append_drop]

/-! ## The recursion: when it returns, and what -/

theorem createBVHtreeFuel_leaf {α : Type} [LinearOrder α] (L : Env α) (fuel : Nat)
    (root : BVHnode α) (objs : List (Geometry α)) (depth : Nat) (h : objs.length ≤ 1) :
    createBVHtreeFuel L fuel root objs depth = leafNode objs := by
  cases fuel <;> simp only [createBVHtreeFuel, h, if_true]

theorem createBVHtreeFuel_succ {α : Type} [LinearOrder α] (L : Env α) (fuel : Nat)
    (l0 r0 : BVHnode α) (box : BoundingBox α) (geom : Option (Geometry α))
    (objs : List (Geometry α)) (depth : Nat) (h : ¬ objs.length ≤ 1) :
    createBVHtreeFuel L (fuel + 1) (BVHnode.node l0 r0 box geom) objs depth =
      match sortedObjs L objs depth with
      | Except.error e => Except.error e
      | Except.ok sorted =>
        match createBVHtreeFuel L fuel (newNode L) (leftHalfObjs sorted) (depth + 1) with
        | Except.error e => Except.error e
        | Except.ok l =>
          match createBVHtreeFuel L fuel (newNode L) (rightHalfObjs sorted) (depth + 1) with
          | Except.error e => Except.error e
          | Except.ok r =>
            Except.ok (BVHnode.node l r (recomputeBox (overallBox L box objs) l r) geom) := by
  rw [createBVHtreeFuel]
  simp only [h, if_false]

theorem createBVHtreeFuel_zero {α : Type} [LinearOrder α] (L : Env α)
    (root : BVHnode α) (objs : List (Geometry α)) (depth : Nat) (h : ¬ objs.length ≤ 1) :
    createBVHtreeFuel L 0 root objs depth = Except.error Fault.outOfFuel := by
  rw [createBVHtreeFuel]
  simp only [h, if_false]

theorem createBVHtreeFuel_null {α : Type} [LinearOrder α] (L : Env α) (fuel : Nat)
    (objs : List (Geometry α)) (depth : Nat) (h : ¬ objs.length ≤ 1) :
    createBVHtreeFuel L (fuel + 1) BVHnode.null objs depth = Except.error Fault.nullPointer := by
  rw [createBVHtreeFuel]
  simp only [h, if_false]

theorem leafNode_singleton {α : Type} (g : Geometry α) :
    leafNode [g] = Except.ok (BVHnode.node BVHnode.null BVHnode.null g.boundingBox (some g)) :=
  rfl

theorem leafNode_nil {α : Type} :
    leafNode ([] : List (Geometry α)) = Except.error Fault.indexOutOfRange := rfl

theorem leafNode_eq_ok {α : Type} {objs : List (Geometry α)} {t : BVHnode α}
    (hlen : objs.length ≤ 1) (h : leafNode objs = Except.ok t) :
    ∃ g, objs = [g] ∧ t = BVHnode.node BVHnode.null BVHnode.null g.boundingBox (some g) := by
  match objs, hlen with
  | [], _ =>
    rw [leafNode_nil] at h
    exact absurd h (by simp)
  | [g], _ =>
    rw [leafNode_singleton] at h
    exact ⟨g, rfl, (Except.ok.inj h).symm⟩
  | _ :: _ :: _, hl => simp at hl

theorem createBVHtreeFuel_built {α : Type} [LinearOrder α] (L : Env α) :
    ∀ (fuel : Nat) (root : BVHnode α) (objs : List (Geometry α)) (depth : Nat) (t : BVHnode α),
      createBVHtreeFuel L fuel root objs depth = Except.ok t → Built L root objs depth t := by
  intro fuel
  induction fuel with
  | zero =>
    intro root objs depth t h
    by_cases hlen : objs.length ≤ 1
    · rw [createBVHtreeFuel_leaf L 0 root objs depth hlen] at h
      obtain ⟨g, rfl, rfl⟩ := leafNode_eq_ok hlen h
      exact Built.leaf root g depth
    · rw [createBVHtreeFuel_zero L root objs depth hlen] at h
      exact absurd h (by simp)
  | succ fuel ih =>
    intro root objs depth t h
    by_cases hlen : objs.length ≤ 1
    · rw [createBVHtreeFuel_leaf L _ root objs depth hlen] at h
      obtain ⟨g, rfl, rfl⟩ := leafNode_eq_ok hlen h
      exact Built.leaf root g depth
    · cases root with
      | null =>
        rw [createBVHtreeFuel_null L _ objs depth hlen] at h
        exact absurd h (by simp)
      | node l0 r0 box geom =>
        rw [createBVHtreeFuel_succ L fuel l0 r0 box geom objs depth hlen] at h
        cases hs : sortedObjs L objs depth with
        | error e => simp [hs] at h
        | ok sorted =>
          cases hl : createBVHtreeFuel L fuel (newNode L) (leftHalfObjs sorted) (depth + 1) with
          | error e => simp [hs, hl] at h
          | ok l =>
            cases hr : createBVHtreeFuel L fuel (newNode L) (rightHalfObjs sorted)
                (depth + 1) with
            | error e => simp [hs, hl, hr] at h
            | ok r =>
              simp only [hs, hl, hr, Except.ok.injEq] at h
              subst h
              exact Built.interior l0 r0 box geom objs sorted depth l r (by omega) hs
                (ih _ _ _ _ hl) (ih _ _ _ _ hr)

/-- On 1 to 16 objects and a non-null `root` the recursion returns a tree. -/
theorem createBVHtreeFuel_ok {α : Type} [LinearOrder α] (L : Env α) :
    ∀ (fuel : Nat) (root : BVHnode α) (objs : List (Geometry α)) (depth : Nat),
      1 ≤ objs.length → objs.length ≤ 16 → objs.length ≤ fuel + 1 → root.isNull = false →
      ∃ t, createBVHtreeFuel L fuel root objs depth = Except.ok t := by
  intro fuel
  induction fuel with
  | zero =>
    intro root objs depth h1 _ h2 _
    match objs, h1, h2 with
    | [g], _, _ =>
      exact ⟨_, by rw [createBVHtreeFuel_leaf L 0 root [g] depth (by simp), leafNode_singleton]⟩
  | succ fuel ih =>
    intro root objs depth h1 h16 h2 hroot
    by_cases hlen : objs.length ≤ 1
    · match objs, h1, hlen with
      | [g], _, _ =>
        exact ⟨_, by rw [createBVHtreeFuel_leaf L _ root [g] depth (by simp), leafNode_singleton]⟩
    · cases root with
      | null => simp [BVHnode.isNull] at hroot
      | node l0 r0 box geom =>
        have hs := sortedObjs_short L objs depth h16
        have hsl : (insertionPass (fun _ _ => true) objs).length = objs.length :=
          (insertionPass_perm _ objs).length_eq
        obtain ⟨_, _, hll, hrl, _⟩ :=
          halves_small (insertionPass (fun _ _ => true) objs) (by rw [hsl]; exact h16)
        rw [hsl] at hll hrl
        obtain ⟨l, hl⟩ := ih (newNode L) (leftHalfObjs (insertionPass (fun _ _ => true) objs))
          (depth + 1) (by omega) (by omega) (by omega) rfl
        obtain ⟨r, hr⟩ := ih (newNode L) (rightHalfObjs (insertionPass (fun _ _ => true) objs))
          (depth + 1) (by omega) (by omega) (by omega) rfl
        refine ⟨BVHnode.node l r (recomputeBox (overallBox L box objs) l r) geom, ?_⟩
        rw [createBVHtreeFuel_succ L fuel l0 r0 box geom objs depth hlen, hs]
        simp only [hl, hr]

/-- A call that returns a tree returns the one the recursion describes. -/
theorem createBVHtree_built {α : Type} [LinearOrder α] {L : Env α} {root : BVHnode α}
    {objs : List (Geometry α)} {depth : Nat} {t : BVHnode α}
    (h : createBVHtree L root objs depth = Except.ok t) : Built L root objs depth t :=
  createBVHtreeFuel_built L _ _ _ _ _ h

/-- On 1 to 16 objects and a non-null `root`, `createBVHtree` returns a tree. -/
theorem createBVHtree_returns {α : Type} [LinearOrder α] (L : Env α) (root : BVHnode α)
    (objs : List (Geometry α)) (depth : Nat) (hne : objs ≠ []) (h16 : objs.length ≤ 16)
    (hroot : root.isNull = false) :
    ∃ t, createBVHtree L root objs depth = Except.ok t := by
  have h1 : 1 ≤ objs.length := by
    cases objs with
    | nil => exact absurd rfl hne
    | cons a l => simp
  exact createBVHtreeFuel_ok L objs.length root objs depth h1 h16 (by omega) hroot

/-- On more than 16 objects and a non-null `root`, `createBVHtree` returns no tree:
`std::sort` reads past the end of the list. -/
theorem createBVHtree_long {α : Type} [LinearOrder α] (L : Env α) (root : BVHnode α)
    (objs : List (Geometry α)) (depth : Nat) (h : 16 < objs.length)
    (hroot : root.isNull = false) :
    createBVHtree L root objs depth = Except.error Fault.sortOutOfRange := by
  unfold createBVHtree
  obtain ⟨k, hk⟩ : ∃ k, objs.length = k + 1 := ⟨objs.length - 1, by omega⟩
  rw [hk]
  cases root with
  | null => simp [BVHnode.isNull] at hroot
  | node l0 r0 box geom =>
    rw [createBVHtreeFuel_succ L k l0 r0 box geom objs depth (by omega),
      sortedObjs_long L objs depth h]

/-- A returned tree comes from a non-empty list of at most 16 objects. -/
theorem built_length {α : Type} [LinearOrder α] {L : Env α} {root : BVHnode α}
    {objs : List (Geometry α)} {depth : Nat} {t : BVHnode α} (h : Built L root objs depth t) :
    1 ≤ objs.length ∧ objs.length ≤ 16 := by
  cases h with
  | leaf => simp
  | interior _ _ _ _ _ _ _ _ _ h2 hs _ _ => exact ⟨by omega, (sortedObjs_ok hs).1⟩

/-- The recursion bound of the embedding is never the reason for a call to end: a call
returns a leaf or ends in the out-of-range access (at most one object), ends in the access
through `root` (a `NULL` root), returns a tree (2 to 16 objects) or ends inside `std::sort`
(more than 16). -/
theorem createBVHtree_fuel_enough {α : Type} [LinearOrder α] (L : Env α) (root : BVHnode α)
    (objs : List (Geometry α)) (depth : Nat) :
    createBVHtree L root objs depth ≠ Except.error Fault.outOfFuel := by
  by_cases h1 : objs.length ≤ 1
  · unfold createBVHtree
    rw [createBVHtreeFuel_leaf L _ root objs depth h1]
    unfold leafNode
    split <;> simp
  · cases root with
    | null =>
      unfold createBVHtree
      obtain ⟨k, hk⟩ : ∃ k, objs.length = k + 1 := ⟨objs.length - 1, by omega⟩
      rw [hk, createBVHtreeFuel_null L k objs depth h1]
      simp
    | node l0 r0 box geom =>
      by_cases h16 : objs.length ≤ 16
      · have hne : objs ≠ [] := by
          intro h0
          rw [h0] at h1
          simp at h1
        obtain ⟨t, ht⟩ := createBVHtree_returns L (BVHnode.node l0 r0 box geom) objs depth
          hne h16 rfl
        rw [ht]
        simp
      · rw [createBVHtree_long L (BVHnode.node l0 r0 box geom) objs depth (by omega) rfl]
        simp

/-! ## Shape of a returned tree -/

theorem built_isNull {α : Type} [LinearOrder α] {L : Env α} {root : BVHnode α}
    {objs : List (Geometry α)} {depth : Nat} {t : BVHnode α} (h : Built L root objs depth t) :
    t.isNull = false := by
  cases h <;> rfl

theorem numLeaves_interior {α : Type} {l r : BVHnode α} (b : BoundingBox α)
    (g : Option (Geometry α)) (hl : l.isNull = false) :
    (BVHnode.node l r b g).numLeaves = l.numLeaves + r.numLeaves := by
  simp [BVHnode.numLeaves, hl]

theorem leafGeoms_interior {α : Type} {l r : BVHnode α} (b : BoundingBox α)
    (g : Option (Geometry α)) (hl : l.isNull = false) :
    (BVHnode.node l r b g).leafGeoms = l.leafGeoms ++ r.leafGeoms := by
  simp [BVHnode.leafGeoms, hl]

theorem children_interior {α : Type} {l r : BVHnode α} (b : BoundingBox α)
    (g : Option (Geometry α)) (hl : l.isNull = false) (hr : r.isNull = false) :
    (BVHnode.node l r b g).children = [l, r] := by
  simp [BVHnode.children, hl, hr]

/-- What the split of a call that got past `std::sort` looks like. -/
theorem sorted_halves {α : Type} [LinearOrder α] {L : Env α} {objs sorted : List (Geometry α)}
    {depth : Nat} (hs : sortedObjs L objs depth = Except.ok sorted) :
    objs.length ≤ 16 ∧ sorted.length = objs.length ∧ List.Perm sorted objs ∧
    leftHalfObjs sorted = sorted.take (objs.length / 2) ∧
    rightHalfObjs sorted = sorted.drop (objs.length / 2) ∧
    (leftHalfObjs sorted).length = objs.length / 2 ∧
    (rightHalfObjs sorted).length = (objs.length + 1) / 2 ∧
    leftHalfObjs sorted ++ rightHalfObjs sorted = sorted := by
  have h16 := (sortedObjs_ok hs).1
  have hlen := sortedObjs_length hs
  obtain ⟨h1, h2, h3, h4, h5⟩ := halves_small sorted (by rw [hlen]; exact h16)
  rw [hlen] at h1 h2 h3 h4
  exact ⟨h16, hlen, sortedObjs_perm hs, h1, h2, h3, h4, h5⟩

theorem built_numLeaves {α : Type} [LinearOrder α] {L : Env α} {root : BVHnode α}
    {objs : List (Geometry α)} {depth : Nat} {t : BVHnode α} (h : Built L root objs depth t) :
    t.numLeaves = objs.length := by
  induction h with
  | leaf root g depth => rfl
  | interior l0 r0 box geom objs sorted depth l r h2 hs hl hr ihl ihr =>
    obtain ⟨_, hlen, _, _, _, _, _, happ⟩ := sorted_halves hs
    rw [numLeaves_interior _ _ (built_isNull hl), ihl, ihr, ← List.length_append, happ, hlen]

theorem built_leafGeoms_perm {α : Type} [LinearOrder α] {L : Env α} {root : BVHnode α}
    {objs : List (Geometry α)} {depth : Nat} {t : BVHnode α} (h : Built L root objs depth t) :
    List.Perm t.leafGeoms objs := by
  induction h with
  | leaf root g depth => exact List.Perm.refl _
  | interior l0 r0 box geom objs sorted depth l r h2 hs hl hr ihl ihr =>
    obtain ⟨_, _, hperm, _, _, _, _, happ⟩ := sorted_halves hs
    rw [leafGeoms_interior _ _ (built_isNull hl)]
    have h1 := List.Perm.append ihl ihr
    rw [happ] at h1
    exact h1.trans hperm

theorem built_leafOrInterior {α : Type} [LinearOrder α] {L : Env α} {root : BVHnode α}
    {objs : List (Geometry α)} {depth : Nat} {t : BVHnode α} (h : Built L root objs depth t) :
    (∀ l0 r0 b g, root = BVHnode.node l0 r0 b g → g = none) →
      ∀ x ∈ t.nodes, x.leafOrInterior = true := by
  induction h with
  | leaf root g depth =>
    intro _ x hx
    simp only [BVHnode.nodes, List.append_nil, List.mem_singleton] at hx
    subst hx
    rfl
  | interior l0 r0 box geom objs sorted depth l r h2 hs hl hr ihl ihr =>
    intro hroot x hx
    have hg : geom = none := hroot l0 r0 box geom rfl
    have hnew : ∀ a b c g, newNode L = BVHnode.node a b c g → g = none := by
      intro a b c g hEq
      simp only [newNode, BVHnode.node.injEq] at hEq
      exact hEq.2.2.2.symm
    simp only [BVHnode.nodes, List.mem_cons, List.mem_append] at hx
    rcases hx with hx | hx | hx
    · subst hx
      simp [BVHnode.leafOrInterior, built_isNull hl, built_isNull hr, hg]
    · exact ihl hnew x hx
    · exact ihr hnew x hx

theorem half_le_pow {n : Nat} (h : 2 ≤ n) : (n + 1) / 2 ≤ 2 ^ (Nat.clog 2 n - 1) := by
  have h1 := Nat.le_pow_clog (by norm_num : 1 < 2) n
  have h2 : 0 < Nat.clog 2 n := Nat.clog_pos (by norm_num) h
  obtain ⟨k, hk⟩ : ∃ k, Nat.clog 2 n = k + 1 := ⟨Nat.clog 2 n - 1, by omega⟩
  rw [hk] at h1 ⊢
  rw [pow_succ] at h1
  simp only [Nat.add_sub_cancel]
  omega

theorem built_levels {α : Type} [LinearOrder α] {L : Env α} {root : BVHnode α}
    {objs : List (Geometry α)} {depth : Nat} {t : BVHnode α} (h : Built L root objs depth t) :
    t.levels ≤ Nat.clog 2 objs.length + 1 := by
  induction h with
  | leaf root g depth => simp [BVHnode.levels]
  | interior l0 r0 box geom objs sorted depth l r h2 hs hl hr ihl ihr =>
    obtain ⟨_, _, _, _, _, hll, hrl, _⟩ := sorted_halves hs
    have hc := half_le_pow h2
    have hpos : 0 < Nat.clog 2 objs.length := Nat.clog_pos (by norm_num) h2
    have hL : Nat.clog 2 (leftHalfObjs sorted).length ≤ Nat.clog 2 objs.length - 1 := by
      rw [← Nat.le_pow_iff_clog_le (by norm_num), hll]
      exact le_trans (by omega) hc
    have hR : Nat.clog 2 (rightHalfObjs sorted).length ≤ Nat.clog 2 objs.length - 1 := by
      rw [← Nat.le_pow_iff_clog_le (by norm_num), hrl]
      exact hc
    simp only [BVHnode.levels]
    have := max_le (le_trans ihl (Nat.add_le_add_right hL 1))
      (le_trans ihr (Nat.add_le_add_right hR 1))
    omega

/-- Every interior node with `k` leaves has `floor(k/2)` of them on the left and `ceil(k/2)`
on the right. -/
theorem built_nodes_balanced {α : Type} [LinearOrder α] {L : Env α} {root : BVHnode α}
    {objs : List (Geometry α)} {depth : Nat} {t : BVHnode α} (h : Built L root objs depth t) :
    ∀ l r b g, BVHnode.node l r b g ∈ t.nodes → l.isNull = false →
      l.numLeaves = (BVHnode.node l r b g).numLeaves / 2 ∧
      r.numLeaves = ((BVHnode.node l r b g).numLeaves + 1) / 2 := by
  induction h with
  | leaf root g depth =>
    intro l r b g' hx hl
    simp only [BVHnode.nodes, List.append_nil, List.mem_singleton, BVHnode.node.injEq] at hx
    rw [hx.1] at hl
    simp [BVHnode.isNull] at hl
  | interior l0 r0 box geom objs sorted depth l r h2 hs hl hr ihl ihr =>
    intro l' r' b g' hx hl'
    simp only [BVHnode.nodes, List.mem_cons, List.mem_append] at hx
    rcases hx with hx | hx | hx
    · have hn := built_numLeaves (Built.interior l0 r0 box geom objs sorted depth l r h2 hs hl hr)
      obtain ⟨_, _, _, _, _, h3, h4, _⟩ := sorted_halves hs
      rw [hx, hn]
      simp only [BVHnode.node.injEq] at hx
      obtain ⟨hxl, hxr, _, _⟩ := hx
      rw [hxl, hxr, built_numLeaves hl, built_numLeaves hr, h3, h4]
      exact ⟨rfl, rfl⟩
    · exact ihl l' r' b g' hx hl'
    · exact ihr l' r' b g' hx hl'

/-! ## Bounding volumes -/

theorem contains_refl {α : Type} [LinearOrder α] (b : BoundingBox α) : b.contains b :=
  fun _ => ⟨le_refl _, le_refl _⟩

theorem contains_trans {α : Type} [LinearOrder α] {a b c : BoundingBox α}
    (h1 : a.contains b) (h2 : b.contains c) : a.contains c :=
  fun i => ⟨le_trans (h1 i).1 (h2 i).1, le_trans (h2 i).2 (h1 i).2⟩

theorem union_contains_left {α : Type} [LinearOrder α] (b o : BoundingBox α) :
    (b.union o).contains b :=
  fun _ => ⟨min_le_left _ _, le_max_left _ _⟩

theorem union_contains_right {α : Type} [LinearOrder α] (b o : BoundingBox α) :
    (b.union o).contains o :=
  fun _ => ⟨min_le_right _ _, le_max_right _ _⟩

/-- After the combining loop the node's box contains what it contained before and the box
of every object, provided each `combineBoxes` grows the box to contain the other one. -/
theorem overallBox_contains {α : Type} [LinearOrder α] (L : Env α)
    (hgrow : ∀ b o, (L.combineBoxes b o).contains b ∧ (L.combineBoxes b o).contains o)
    (objs : List (Geometry α)) :
    ∀ box, (overallBox L box objs).contains box ∧
      ∀ g ∈ objs, (overallBox L box objs).contains g.boundingBox := by
  induction objs with
  | nil =>
    intro box
    exact ⟨contains_refl _, fun g hg => absurd hg (List.not_mem_nil g)⟩
  | cons x xs ih =>
    intro box
    obtain ⟨h1, h2⟩ := ih (L.combineBoxes box x.boundingBox)
    have hstep : overallBox L box (x :: xs)
        = overallBox L (L.combineBoxes box x.boundingBox) xs := rfl
    rw [hstep]
    refine ⟨contains_trans h1 (hgrow _ _).1, ?_⟩
    intro g hg
    rcases List.mem_cons.mp hg with hgx | hgxs
    · subst hgx
      exact contains_trans h1 (hgrow _ _).2
    · exact h2 g hgxs

theorem built_mem_nodes {α : Type} [LinearOrder α] {L : Env α} {root : BVHnode α}
    {objs : List (Geometry α)} {depth : Nat} {t : BVHnode α} (h : Built L root objs depth t) :
    t ∈ t.nodes := by
  cases h <;> exact List.mem_cons_self _ _

theorem built_boxOf {α : Type} [LinearOrder α] {L : Env α} {root : BVHnode α}
    {objs : List (Geometry α)} {depth : Nat} {t : BVHnode α} (h : Built L root objs depth t) :
    ∃ tb, t.boxOf = some tb := by
  cases h <;> exact ⟨_, rfl⟩

/-- The volume of a node with two returned subtrees is the union of their volumes. -/
theorem recomputeBox_built {α : Type} [LinearOrder α] {L : Env α} {rl rr : BVHnode α}
    {ol or : List (Geometry α)} {dl dr : Nat} {l r : BVHnode α}
    (hl : Built L rl ol dl l) (hr : Built L rr or dr r) (current : BoundingBox α) :
    ∃ lb rb, l.boxOf = some lb ∧ r.boxOf = some rb ∧ recomputeBox current l r = lb.union rb := by
  obtain ⟨lb, hlb⟩ := built_boxOf hl
  obtain ⟨rb, hrb⟩ := built_boxOf hr
  exact ⟨lb, rb, hlb, hrb, by simp [recomputeBox, hlb, hrb]⟩

theorem built_interior_box_union {α : Type} [LinearOrder α] {L : Env α} {root : BVHnode α}
    {objs : List (Geometry α)} {depth : Nat} {t : BVHnode α} (h : Built L root objs depth t) :
    ∀ l r b g, BVHnode.node l r b g ∈ t.nodes → l.isNull = false →
      ∃ lb rb, l.boxOf = some lb ∧ r.boxOf = some rb ∧ b = lb.union rb := by
  induction h with
  | leaf root g depth =>
    intro l r b g' hx hl
    simp only [BVHnode.nodes, List.append_nil, List.mem_singleton, BVHnode.node.injEq] at hx
    rw [hx.1] at hl
    simp [BVHnode.isNull] at hl
  | interior l0 r0 box geom objs sorted depth l r h2 hs hl hr ihl ihr =>
    intro l' r' b g' hx hl'
    simp only [BVHnode.nodes, List.mem_cons, List.mem_append] at hx
    rcases hx with hx | hx | hx
    · simp only [BVHnode.node.injEq] at hx
      obtain ⟨hxl, hxr, hxb, _⟩ := hx
      rw [hxl, hxr, hxb]
      exact recomputeBox_built hl hr _
    · exact ihl l' r' b g' hx hl'
    · exact ihr l' r' b g' hx hl'

/-- In a returned tree every node's volume contains the volume of every geometry held by a
leaf below it, and the volumes of its children. -/
theorem built_nodes_contain {α : Type} [LinearOrder α] {L : Env α} {root : BVHnode α}
    {objs : List (Geometry α)} {depth : Nat} {t : BVHnode α} (h : Built L root objs depth t) :
    (∀ x ∈ t.nodes, ∀ b, x.boxOf = some b → ∀ g ∈ x.leafGeoms, b.contains g.boundingBox) ∧
    (∀ x ∈ t.nodes, ∀ b, x.boxOf = some b → ∀ c ∈ x.children, ∀ cb, c.boxOf = some cb →
      b.contains cb) := by
  induction h with
  | leaf root g depth =>
    refine ⟨?_, ?_⟩
    · intro x hx b hb y hy
      simp only [BVHnode.nodes, List.append_nil, List.mem_singleton] at hx
      subst hx
      simp only [BVHnode.boxOf, Option.some.injEq] at hb
      subst hb
      simp only [BVHnode.leafGeoms, BVHnode.isNull, Bool.and_self, if_true, Option.toList,
        List.mem_singleton] at hy
      subst hy
      exact contains_refl _
    · intro x hx b _ c hc
      simp only [BVHnode.nodes, List.append_nil, List.mem_singleton] at hx
      subst hx
      simp [BVHnode.children, BVHnode.isNull] at hc
  | interior l0 r0 box geom objs sorted depth l r h2 hs hl hr ihl ihr =>
    obtain ⟨lb, rb, hlb, hrb, hrec⟩ := recomputeBox_built hl hr (overallBox L box objs)
    have hlroot : l ∈ l.nodes := built_mem_nodes hl
    have hrroot : r ∈ r.nodes := built_mem_nodes hr
    refine ⟨?_, ?_⟩
    · intro x hx b hb y hy
      simp only [BVHnode.nodes, List.mem_cons, List.mem_append] at hx
      rcases hx with hx | hx | hx
      · subst hx
        simp only [BVHnode.boxOf, Option.some.injEq] at hb
        subst hb
        rw [hrec]
        rw [leafGeoms_interior _ _ (built_isNull hl), List.mem_append] at hy
        rcases hy with hy | hy
        · exact contains_trans (union_contains_left lb rb) (ihl.1 l hlroot lb hlb y hy)
        · exact contains_trans (union_contains_right lb rb) (ihr.1 r hrroot rb hrb y hy)
      · exact ihl.1 x hx b hb y hy
      · exact ihr.1 x hx b hb y hy
    · intro x hx b hb c hc cb hcb
      simp only [BVHnode.nodes, List.mem_cons, List.mem_append] at hx
      rcases hx with hx | hx | hx
      · subst hx
        simp only [BVHnode.boxOf, Option.some.injEq] at hb
        subst hb
        rw [hrec]
        rw [children_interior _ _ (built_isNull hl) (built_isNull hr)] at hc
        simp only [List.mem_cons, List.mem_singleton, List.not_mem_nil, or_false] at hc
        rcases hc with hc | hc
        · subst hc
          rw [hlb] at hcb
          rw [← Option.some.inj hcb]
          exact union_contains_left lb rb
        · subst hc
          rw [hrb] at hcb
          rw [← Option.some.inj hcb]
          exact union_contains_right lb rb
      · exact ihl.2 x hx b hb c hc cb hcb
      · exact ihr.2 x hx b hb c hc cb hcb

/-- The root's volume contains the volume of every object of the call. -/
theorem built_root_contains {α : Type} [LinearOrder α] {L : Env α} {root : BVHnode α}
    {objs : List (Geometry α)} {depth : Nat} {t : BVHnode α} (h : Built L root objs depth t) :
    ∃ tb, t.boxOf = some tb ∧ ∀ g ∈ objs, tb.contains g.boundingBox := by
  obtain ⟨tb, htb⟩ := built_boxOf h
  refine ⟨tb, htb, ?_⟩
  intro g hg
  have hroot : t ∈ t.nodes := built_mem_nodes h
  exact (built_nodes_contain h).1 t hroot tb htb g ((built_leafGeoms_perm h).mem_iff.mpr hg)

/-! ## Rounding to `float` -/

theorem roundToEven_intCast (n : ℤ) : roundToEven (n : ℚ) = n := by
  unfold roundToEven
  rw [Int.floor_intCast, sub_self, if_pos (by norm_num)]

theorem log_lt_of_isF32 {q : ℚ} {m k : ℤ} (hm : |m| < 2 ^ 24) (hq : q = (m : ℚ) * 2 ^ k)
    (h0 : q ≠ 0) : |q| < 2 ^ (k + 24) ∧ Int.log 2 |q| < k + 24 := by
  have hpos : (0 : ℚ) < 2 ^ k := zpow_pos (by norm_num) k
  have hmq : |(m : ℚ)| < 2 ^ 24 := by
    have : ((|m| : ℤ) : ℚ) < ((2 ^ 24 : ℤ) : ℚ) := Int.cast_lt.mpr hm
    simpa using this
  have habs : |q| < 2 ^ (k + 24) := by
    rw [hq, abs_mul, abs_of_pos hpos, zpow_add₀ (by norm_num : (2 : ℚ) ≠ 0), mul_comm]
    have : (2 : ℚ) ^ (24 : ℤ) = 2 ^ 24 := by norm_num
    rw [this]
    exact mul_lt_mul_of_pos_left hmq hpos
  refine ⟨habs, ?_⟩
  exact (Int.lt_zpow_iff_log_lt (by norm_num) (abs_pos.mpr h0)).mp habs

theorem roundF32_of_isF32 {q : ℚ} (h : IsF32 (some q)) : roundF32 q = some q := by
  obtain ⟨m, k, hm, hk1, hk2, hq⟩ := h
  unfold roundF32
  by_cases h0 : q = 0
  · rw [if_pos h0, h0]
  · rw [if_neg h0]
    obtain ⟨habs, hlog⟩ := log_lt_of_isF32 hm hq h0
    simp only []
    have hj : max (Int.log 2 |q|) (-126) - 23 ≤ k := by
      have : max (Int.log 2 |q|) (-126) ≤ k + 23 := max_le (by omega) (by omega)
      omega
    generalize max (Int.log 2 |q|) (-126) - 23 = j at hj
    obtain ⟨d, hd⟩ : ∃ d : ℕ, k = j + d := ⟨(k - j).toNat, by
      rw [Int.toNat_of_nonneg (by omega)]; omega⟩
    have h2 : (2 : ℚ) ^ j ≠ 0 := (zpow_pos (by norm_num) j).ne.symm
    have hdiv : q / 2 ^ j = ((m * 2 ^ d : ℤ) : ℚ) := by
      rw [hq, hd, zpow_add₀ (by norm_num : (2 : ℚ) ≠ 0), zpow_natCast]
      push_cast
      field_simp
      ring
    rw [hdiv, roundToEven_intCast]
    have hy : ((m * 2 ^ d : ℤ) : ℚ) * 2 ^ j = q := by
      rw [hq, hd, zpow_add₀ (by norm_num : (2 : ℚ) ≠ 0), zpow_natCast]
      push_cast
      ring
    rw [hy]
    have hlt : |q| < 2 ^ 128 := by
      refine lt_of_lt_of_le habs ?_
      have h128 : (2 : ℚ) ^ (k + 24) ≤ 2 ^ (128 : ℤ) :=
        zpow_le_zpow_right₀ (by norm_num) (by omega)
      have hcast : (2 : ℚ) ^ (128 : ℤ) = 2 ^ 128 := zpow_natCast 2 128
      rw [hcast] at h128
      exact h128
    rw [if_pos hlt]

theorem toFloat_one : toFloat 1 = 1 := by
  unfold toFloat
  rw [if_pos (by norm_num)]

theorem F32_zero_add {c : F32} (h : IsF32 c) : F32.add (some 0) c = c := by
  cases c with
  | none => rfl
  | some q =>
    show roundF32 (0 + q) = some q
    rw [zero_add]
    exact roundF32_of_isF32 h

theorem F32_divCount_one {c : F32} (h : IsF32 c) : F32.divCount c 1 = c := by
  cases c with
  | none => rfl
  | some q =>
    show (if (1 : Nat) = 0 then none else roundF32 (q / (toFloat 1 : ℚ))) = some q
    rw [if_neg (by norm_num), toFloat_one]
    simp only [Nat.cast_one, div_one]
    exact roundF32_of_isF32 h

theorem isF32_one : IsF32 (some 1) := ⟨1, 0, by norm_num, by norm_num, by norm_num, by norm_num⟩

theorem roundF32_one : roundF32 1 = some 1 := roundF32_of_isF32 isF32_one

theorem toFloat_three : toFloat 3 = 3 := by
  unfold toFloat
  rw [if_pos (by norm_num)]

theorem log_third : Int.log 2 |(1 / 3 : ℚ)| = -2 := by
  have habs : |(1 / 3 : ℚ)| = 1 / 3 := abs_of_pos (by norm_num)
  rw [habs]
  apply le_antisymm
  · have : Int.log 2 (1 / 3 : ℚ) < -1 :=
      (Int.lt_zpow_iff_log_lt (by norm_num) (by norm_num)).mp (by norm_num)
    omega
  · exact (Int.zpow_le_iff_le_log (by norm_num) (by norm_num)).mp (by norm_num)

theorem roundF32_third : roundF32 (1 / 3) = some (11184811 / 33554432) := by
  unfold roundF32
  rw [if_neg (by norm_num)]
  simp only [log_third]
  have hmax : max (-2 : ℤ) (-126) - 23 = -25 := by decide
  rw [hmax]
  have hx : (1 / 3 : ℚ) / 2 ^ (-25 : ℤ) = 33554432 / 3 := by norm_num
  rw [hx]
  have hfl : ⌊(33554432 / 3 : ℚ)⌋ = 11184810 := by
    rw [Int.floor_eq_iff]
    constructor <;> norm_num
  have hr : roundToEven (33554432 / 3 : ℚ) = 11184811 := by
    unfold roundToEven
    rw [hfl, if_neg (by norm_num), if_pos (by norm_num)]
    norm_num
  rw [hr]
  have hy : ((11184811 : ℤ) : ℚ) * 2 ^ (-25 : ℤ) = 11184811 / 33554432 := by norm_num
  rw [hy, if_pos (by norm_num [abs_of_pos])]

/-! ## The render loop -/

theorem foldl_set_range (i : Nat) (c : Nat → Vec3) (n : Nat) (f : Film) (a b : Nat) :
    ((List.range n).foldl (fun f j => f.set i j (c j)) f).pixels a b
        = (if a = i ∧ b < n then c b else f.pixels a b) ∧
    ((List.range n).foldl (fun f j => f.set i j (c j)) f).writes a b
        = f.writes a b + (if a = i ∧ b < n then 1 else 0) := by
  induction n with
  | zero => simp
  | succ n ih =>
    rw [List.range_succ, List.foldl_append, List.foldl_cons, List.foldl_nil]
    obtain ⟨ihp, ihw⟩ := ih
    have hsp : ∀ g : Film, (g.set i n (c n)).pixels a b
        = if a = i ∧ b = n then c n else g.pixels a b := fun _ => rfl
    have hsw : ∀ g : Film, (g.set i n (c n)).writes a b
        = if a = i ∧ b = n then g.writes a b + 1 else g.writes a b := fun _ => rfl
    rw [hsp, hsw, ihp, ihw]
    by_cases ha : a = i
    · by_cases hb : b = n
      · subst hb
        simp [ha]
      · by_cases hlt : b < n
        · have : b < n + 1 := by omega
          simp [ha, hb, hlt, this]
        · have : ¬ b < n + 1 := by omega
          simp [ha, hb, hlt, this]
    · simp [ha]

theorem renderColumn_cell {Ray : Type} (R : RenderEnv Ray) (i : Nat) (f : Film) (a b : Nat) :
    (renderColumn R i f).pixels a b
        = (if a = i ∧ b < R.height then avgColor R i b else f.pixels a b) ∧
    (renderColumn R i f).writes a b
        = f.writes a b + (if a = i ∧ b < R.height then 1 else 0) :=
  foldl_set_range i (avgColor R i) R.height f a b

theorem foldl_renderColumn_range {Ray : Type} (R : RenderEnv Ray) (m : Nat) (f : Film)
    (a b : Nat) :
    ((List.range m).foldl (fun f i => renderColumn R i f) f).pixels a b
        = (if a < m ∧ b < R.height then avgColor R a b else f.pixels a b) ∧
    ((List.range m).foldl (fun f i => renderColumn R i f) f).writes a b
        = f.writes a b + (if a < m ∧ b < R.height then 1 else 0) := by
  induction m with
  | zero => simp
  | succ m ih =>
    rw [List.range_succ, List.foldl_append, List.foldl_cons, List.foldl_nil]
    obtain ⟨ihp, ihw⟩ := ih
    obtain ⟨hp, hw⟩ := renderColumn_cell R m
      ((List.range m).foldl (fun f i => renderColumn R i f) f) a b
    rw [hp, hw, ihp, ihw]
    by_cases hb : b < R.height
    · by_cases ha : a = m
      · subst ha
        simp [hb]
      · by_cases hlt : a < m
        · have : a < m + 1 := by omega
          simp [ha, hb, hlt, this]
        · have : ¬ a < m + 1 := by omega
          simp [ha, hb, hlt, this]
    · simp [hb]

theorem raytraceLoop_cell {Ray : Type} (R : RenderEnv Ray) (film : Film) (i j : Nat)
    (hi : i < R.width) (hj : j < R.height) :
    (raytraceLoop R film).pixels i j = avgColor R i j ∧
    (raytraceLoop R film).writes i j = film.writes i j + 1 := by
  obtain ⟨hp, hw⟩ := foldl_renderColumn_range R R.width film i j
  unfold raytraceLoop
  rw [hp, hw, if_pos ⟨hi, hj⟩, if_pos ⟨hi, hj⟩]
  exact ⟨rfl, rfl⟩

theorem avgColor_single {Ray : Type} (R : RenderEnv Ray) (i j : Nat) (s : F32 × F32)
    (hs : R.GetSamples i j = [s]) : avgColor R i j = R.TraceRay (R.Raycast s.1 s.2) 0 := by
  obtain ⟨h1, h2, h3⟩ := R.TraceRay_float (R.Raycast s.1 s.2) 0
  unfold avgColor sampledColors
  rw [hs]
  simp only [List.map_cons, List.map_nil, List.foldl_cons, List.foldl_nil, List.length_cons,
    List.length_nil, Vec3.add, Vec3.zero, Vec3.divCount]
  rw [F32_zero_add h1, F32_zero_add h2, F32_zero_add h3, F32_divCount_one h1,
    F32_divCount_one h2, F32_divCount_one h3]

theorem sampledColors_thirds :
    sampledColors thirdsRender 0 0 = [(some 1, some 1, some 1), Vec3.zero, Vec3.zero] := by
  simp [sampledColors, thirdsRender]

theorem F32_thirds :
    F32.divCount (F32.add (F32.add (F32.add (some 0) (some 1)) (some 0)) (some 0)) 3
      = some (11184811 / 33554432) := by
  have h1 : F32.add (some 0) (some 1) = some 1 := F32_zero_add isF32_one
  have h2 : F32.add (some 1) (some 0) = some 1 := by
    show roundF32 (1 + 0) = some 1
    rw [add_zero]
    exact roundF32_one
  rw [h1, h2, h2]
  show (if (3 : Nat) = 0 then none else roundF32 (1 / (toFloat 3 : ℚ))) = _
  rw [if_neg (by norm_num), toFloat_three]
  exact roundF32_third

theorem avgColor_thirds :
    avgColor thirdsRender 0 0
      = (some (11184811 / 33554432), some (11184811 / 33554432), some (11184811 / 33554432)) := by
  unfold avgColor
  rw [sampledColors_thirds]
  simp only [List.foldl_cons, List.foldl_nil, List.length_cons, List.length_nil, Vec3.add,
    Vec3.zero, Vec3.divCount]
  rw [F32_thirds]

theorem exactMean_thirds :
    exactMean (sampledColors thirdsRender 0 0) = (some (1 / 3), some (1 / 3), some (1 / 3)) := by
  rw [sampledColors_thirds]
  simp only [exactMean, List.map_cons, List.map_nil, List.foldl_cons, List.foldl_nil,
    List.length_cons, List.length_nil, Vec3.zero, F32.exactAdd, F32.exactDiv]
  norm_num

/-! ## Claims about the comparators and the sort -/

/-- C10: each of `compareXcoords`, `compareYcoords`, `compareZcoords` returns `-1` or `1` for
every pair of geometries (also for `a = b`), never `0`; read as the condition `std::sort`
tests, the result is `true` for every pair, so `comp(a, a)` holds and `comp(a, b)` and
`comp(b, a)` hold together: the comparator is no strict weak ordering and tells nothing
about which upper bound is smaller. -/
theorem compareCoords_never_zero {α : Type} [LinearOrder α] (a b : Geometry α) :
    ((compareXcoords a b = -1 ∨ compareXcoords a b = 1) ∧
      (compareYcoords a b = -1 ∨ compareYcoords a b = 1) ∧
      (compareZcoords a b = -1 ∨ compareZcoords a b = 1)) ∧
    (compareXcoords a b ≠ 0 ∧ compareYcoords a b ≠ 0 ∧ compareZcoords a b ≠ 0) ∧
    (intToBool (compareXcoords a b) = true ∧ intToBool (compareYcoords a b) = true ∧
      intToBool (compareZcoords a b) = true) ∧
    (intToBool (compareXcoords a a) = true ∧ intToBool (compareYcoords a a) = true ∧
      intToBool (compareZcoords a a) = true) ∧
    (intToBool (compareXcoords b a) = true ∧ intToBool (compareYcoords b a) = true ∧
      intToBool (compareZcoords b a) = true) := by
  have hx : ∀ p q : Geometry α, compareXcoords p q = -1 ∨ compareXcoords p q = 1 := by
    intro p q
    unfold compareXcoords
    split
    · exact Or.inl rfl
    · exact Or.inr rfl
  have hy : ∀ p q : Geometry α, compareYcoords p q = -1 ∨ compareYcoords p q = 1 := by
    intro p q
    unfold compareYcoords
    split
    · exact Or.inl rfl
    · exact Or.inr rfl
  have hz : ∀ p q : Geometry α, compareZcoords p q = -1 ∨ compareZcoords p q = 1 := by
    intro p q
    unfold compareZcoords
    split
    · exact Or.inl rfl
    · exact Or.inr rfl
  have hb : ∀ r : Int, r = -1 ∨ r = 1 → r ≠ 0 ∧ intToBool r = true := by
    intro r hr
    rcases hr with hr | hr <;> subst hr <;> exact ⟨by decide, by decide⟩
  exact ⟨⟨hx a b, hy a b, hz a b⟩,
    ⟨(hb _ (hx a b)).1, (hb _ (hy a b)).1, (hb _ (hz a b)).1⟩,
    ⟨(hb _ (hx a b)).2, (hb _ (hy a b)).2, (hb _ (hz a b)).2⟩,
    ⟨(hb _ (hx a a)).2, (hb _ (hy a a)).2, (hb _ (hz a a)).2⟩,
    ⟨(hb _ (hx b a)).2, (hb _ (hy b a)).2, (hb _ (hz b a)).2⟩⟩

/-- C3: the sequence that `createBVHtree` goes on to split is not the list sorted by upper
bound. For every environment it is what `std::sort` makes of the list under a condition
that holds for every pair; at depth 0 (x axis) the list `[geomLow, geomHigh]` of upper x
bounds 2 and 4 becomes `[geomHigh, geomLow]`, upper bounds 4 then 2, not in ascending order;
and `[geomLow, geomLowTwin]`, two objects of equal upper bound, comes out with the two
exchanged. -/
theorem sortedObjs_not_ascending :
    (∀ (L : Env Int) (objs : List (Geometry Int)) (depth : Nat),
      sortedObjs L objs depth = stdSort L.sortLong (fun _ _ => true) objs) ∧
    sortedObjs originEnv [geomLow, geomHigh] 0 = Except.ok [geomHigh, geomLow] ∧
    geomLow.boundingBox.maxBound 0 < geomHigh.boundingBox.maxBound 0 ∧
    (∀ s, sortedObjs originEnv [geomLow, geomHigh] 0 = Except.ok s →
      ¬ List.Pairwise
        (fun a b : Geometry Int => a.boundingBox.maxBound 0 ≤ b.boundingBox.maxBound 0) s) ∧
    geomLow.boundingBox.maxBound 0 = geomLowTwin.boundingBox.maxBound 0 ∧
    sortedObjs originEnv [geomLow, geomLowTwin] 0 = Except.ok [geomLowTwin, geomLow] := by
  have h : sortedObjs originEnv [geomLow, geomHigh] 0 = Except.ok [geomHigh, geomLow] := rfl
  refine ⟨fun L objs depth => sortedObjs_eq_sort_true L objs depth, h, by decide, ?_, rfl, rfl⟩
  intro s hs
  rw [h] at hs
  rw [← Except.ok.inj hs]
  intro hp
  have h2 := List.rel_of_pairwise_cons hp (List.mem_singleton.mpr rfl)
  exact absurd h2 (by decide)

/-! ## Claims about the calls that return no tree -/

/-- C5: on the empty list `createBVHtree(root, [], d)` takes the branch `objs.count() <= 1`
and evaluates `objs[0]`, an access past the end of the list, for every `root` and depth `d`:
the call ends in that access, there is no test of the argument before it. -/
theorem createBVHtree_empty_out_of_range {α : Type} [LinearOrder α] (L : Env α)
    (root : BVHnode α) (depth : Nat) :
    ([] : List (Geometry α)).length ≤ 1 ∧
    createBVHtree L root [] depth = Except.error Fault.indexOutOfRange :=
  ⟨Nat.zero_le 1, rfl⟩

theorem seventeenGeoms_length : seventeenGeoms.length = 17 := by
  simp [seventeenGeoms]

/-- C6: on the seventeen sample objects `createBVHtree` returns no tree, in every environment
and at every depth: `std::sort` is handed a comparator that holds for every pair, and on more
than 16 elements its partition scan reads past the end of the list. -/
theorem createBVHtree_seventeen_no_tree (L : Env Int) (depth : Nat) :
    seventeenGeoms ≠ [] ∧ seventeenGeoms.length = 17 ∧
    createBVHtree L (newNode L) seventeenGeoms depth = Except.error Fault.sortOutOfRange := by
  have hlen := seventeenGeoms_length
  refine ⟨?_, hlen, createBVHtree_long L (newNode L) seventeenGeoms depth (by omega) rfl⟩
  intro h0
  rw [h0] at hlen
  simp at hlen

/-- Up to 16 objects the call returns a tree, of height at most `ceil(log2(n))`, and every
split gives two non-empty, strictly shorter lists. -/
theorem createBVHtree_short_height {α : Type} [LinearOrder α] (L : Env α) (root : BVHnode α)
    (objs : List (Geometry α)) (depth : Nat) (hne : objs ≠ []) (h16 : objs.length ≤ 16)
    (hroot : root.isNull = false) :
    (∃ t, createBVHtree L root objs depth = Except.ok t ∧
      t.height ≤ Nat.clog 2 objs.length) ∧
    (∀ s, 2 ≤ objs.length → sortedObjs L objs depth = Except.ok s →
      (leftHalfObjs s ≠ [] ∧ (leftHalfObjs s).length < objs.length) ∧
      (rightHalfObjs s ≠ [] ∧ (rightHalfObjs s).length < objs.length)) := by
  refine ⟨?_, ?_⟩
  · obtain ⟨t, ht⟩ := createBVHtree_returns L root objs depth hne h16 hroot
    refine ⟨t, ht, ?_⟩
    have := built_levels (createBVHtree_built ht)
    unfold BVHnode.height
    omega
  · intro s h2 hs
    obtain ⟨_, _, _, _, _, hll, hrl, _⟩ := sorted_halves hs
    refine ⟨⟨?_, by omega⟩, ⟨?_, by omega⟩⟩
    · intro h0
      rw [h0] at hll
      simp at hll
      omega
    · intro h0
      rw [h0] at hrl
      simp at hrl
      omega

/-! ## Claims about the tree that is returned -/

/-- C1: whenever `createBVHtree` returns a tree for a non-empty list `objs`, the tree has
exactly `objs.count()` leaves and the geometries held by its leaves are a permutation of
`objs`; on 1 to 16 objects and a `root` that is not `NULL` a tree is returned. -/
theorem createBVHtree_leaves_perm {α : Type} [LinearOrder α] (L : Env α) (root : BVHnode α)
    (objs : List (Geometry α)) (depth : Nat) (hne : objs ≠ []) :
    (∀ t, createBVHtree L root objs depth = Except.ok t →
      t.numLeaves = objs.length ∧ List.Perm t.leafGeoms objs) ∧
    (objs.length ≤ 16 → root.isNull = false →
      ∃ t, createBVHtree L root objs depth = Except.ok t) := by
  refine ⟨?_, fun h16 hroot => createBVHtree_returns L root objs depth hne h16 hroot⟩
  intro t ht
  have hb := createBVHtree_built ht
  exact ⟨built_numLeaves hb, built_leafGeoms_perm hb⟩

/-- Witness of C1 on three sample objects. -/
theorem createBVHtree_leaves_perm_witness :
    [geomLow, geomPoint, geomHigh] ≠ [] ∧
    (∀ t, createBVHtree originEnv (newNode originEnv) [geomLow, geomPoint, geomHigh] 0
        = Except.ok t →
      t.numLeaves = [geomLow, geomPoint, geomHigh].length ∧
      List.Perm t.leafGeoms [geomLow, geomPoint, geomHigh]) ∧
    ∃ t, createBVHtree originEnv (newNode originEnv) [geomLow, geomPoint, geomHigh] 0
      = Except.ok t :=
  ⟨by simp,
    (createBVHtree_leaves_perm originEnv (newNode originEnv) [geomLow, geomPoint, geomHigh] 0
      (by simp)).1,
    (createBVHtree_leaves_perm originEnv (newNode originEnv) [geomLow, geomPoint, geomHigh] 0
      (by simp)).2 (by simp) rfl⟩

/-- C4: when `createBVHtree` splits a list of `n >= 2` geometries, the sorted sequence `s`
is cut into `leftHalfObjs`, its first `floor(n/2)` elements, and `rightHalfObjs`, the
remaining `n - floor(n/2) = ceil(n/2)` elements, so that the two together are `s`, and for
odd `n` the right half has one element more; in a returned tree every interior node with
`k` leaves has `floor(k/2)` of them in its left subtree and `ceil(k/2)` in its right one. On
2 to 16 objects `std::sort` returns, and so does the call when `root` is not `NULL`. -/
theorem createBVHtree_split {α : Type} [LinearOrder α] (L : Env α) (root : BVHnode α)
    (objs : List (Geometry α)) (depth : Nat) (h2 : 2 ≤ objs.length) :
    (∀ s, sortedObjs L objs depth = Except.ok s →
      leftHalfObjs s = s.take (objs.length / 2) ∧
      rightHalfObjs s = s.drop (objs.length / 2) ∧
      (leftHalfObjs s).length = objs.length / 2 ∧
      (rightHalfObjs s).length = objs.length - objs.length / 2 ∧
      (rightHalfObjs s).length = (objs.length + 1) / 2 ∧
      leftHalfObjs s ++ rightHalfObjs s = s ∧
      (objs.length % 2 = 1 → (rightHalfObjs s).length = (leftHalfObjs s).length + 1)) ∧
    (∀ t, createBVHtree L root objs depth = Except.ok t →
      ∀ l r b g, BVHnode.node l r b g ∈ t.nodes → l.isNull = false →
        l.numLeaves = (BVHnode.node l r b g).numLeaves / 2 ∧
        r.numLeaves = ((BVHnode.node l r b g).numLeaves + 1) / 2) ∧
    (objs.length ≤ 16 →
      (∃ s, sortedObjs L objs depth = Except.ok s) ∧
      (root.isNull = false → ∃ t, createBVHtree L root objs depth = Except.ok t)) := by
  refine ⟨?_, ?_, ?_⟩
  · intro s hs
    obtain ⟨_, _, _, h1, h3, hll, hrl, happ⟩ := sorted_halves hs
    refine ⟨h1, h3, hll, by omega, hrl, happ, ?_⟩
    intro hodd
    omega
  · intro t ht
    exact built_nodes_balanced (createBVHtree_built ht)
  · intro h16
    refine ⟨⟨_, sortedObjs_short L objs depth h16⟩, ?_⟩
    intro hroot
    apply createBVHtree_returns L root objs depth _ h16 hroot
    intro h0
    rw [h0] at h2
    simp at h2

/-- Witness of C4 on three sample objects. -/
theorem createBVHtree_split_witness :
    2 ≤ [geomLow, geomPoint, geomHigh].length ∧
    (∃ s, sortedObjs originEnv [geomLow, geomPoint, geomHigh] 0 = Except.ok s) ∧
    ∃ t, createBVHtree originEnv (newNode originEnv) [geomLow, geomPoint, geomHigh] 0
      = Except.ok t :=
  ⟨by simp,
    ((createBVHtree_split originEnv (newNode originEnv) [geomLow, geomPoint, geomHigh] 0
      (by simp)).2.2 (by simp)).1,
    ((createBVHtree_split originEnv (newNode originEnv) [geomLow, geomPoint, geomHigh] 0
      (by simp)).2.2 (by simp)).2 rfl⟩

/-- C9: whenever `createBVHtree`, called with a freshly constructed `root`, returns a tree
for a non-empty list, every node of the tree is either a leaf (it references a geometry and
both its children are `NULL`) or an interior node (it references no geometry and both its
children are non-`NULL`); on 1 to 16 objects a tree is returned. -/
theorem createBVHtree_leaf_or_interior {α : Type} [LinearOrder α] (L : Env α)
    (objs : List (Geometry α)) (depth : Nat) (hne : objs ≠ []) :
    (∀ t, createBVHtree L (newNode L) objs depth = Except.ok t →
      ∀ x ∈ t.nodes, x.leafOrInterior = true) ∧
    (objs.length ≤ 16 → ∃ t, createBVHtree L (newNode L) objs depth = Except.ok t) := by
  refine ⟨?_, fun h16 => createBVHtree_returns L (newNode L) objs depth hne h16 rfl⟩
  intro t ht
  refine built_leafOrInterior (createBVHtree_built ht) ?_
  intro a b c g hEq
  simp only [newNode, BVHnode.node.injEq] at hEq
  exact hEq.2.2.2.symm

/-- Witness of C9 on three sample objects. -/
theorem createBVHtree_leaf_or_interior_witness :
    [geomLow, geomPoint, geomHigh] ≠ [] ∧
    (∀ t, createBVHtree originEnv (newNode originEnv) [geomLow, geomPoint, geomHigh] 1
        = Except.ok t → ∀ x ∈ t.nodes, x.leafOrInterior = true) ∧
    ([geomLow, geomPoint, geomHigh].length ≤ 16 →
      ∃ t, createBVHtree originEnv (newNode originEnv) [geomLow, geomPoint, geomHigh] 1
        = Except.ok t) :=
  ⟨by simp, createBVHtree_leaf_or_interior originEnv [geomLow, geomPoint, geomHigh] 1 (by simp)⟩

/-! ## Claims about the bounding volumes -/

/-- C2: assume that `combineBoxes` grows a box so that it contains both what it contained
and the other box. Then the volume the combining loop leaves in the node contains the volume
of every object of the list; and whenever `createBVHtree` returns a tree for a non-empty
list, the root's bounding volume contains the bounding volume of every input geometry
(`minBound[i] <= g.minBound[i]` and `g.maxBound[i] <= maxBound[i]` on every axis), every
node's bounding volume contains the bounding volume of every geometry held by a leaf below
it, and every node's bounding volume contains those of its children. On 1 to 16 objects and
a `root` that is not `NULL` a tree is returned. -/
theorem createBVHtree_boxes_contain {α : Type} [LinearOrder α] (L : Env α) (root : BVHnode α)
    (objs : List (Geometry α)) (depth : Nat)
    (hgrow : ∀ b o, (L.combineBoxes b o).contains b ∧ (L.combineBoxes b o).contains o)
    (hne : objs ≠ []) :
    (∀ box, ∀ g ∈ objs, (overallBox L box objs).contains g.boundingBox) ∧
    (∀ t, createBVHtree L root objs depth = Except.ok t →
      ∃ tb, t.boxOf = some tb ∧
        (∀ g ∈ objs, ∀ i : Fin 3, tb.minBound i ≤ g.boundingBox.minBound i ∧
          g.boundingBox.maxBound i ≤ tb.maxBound i) ∧
        (∀ x ∈ t.nodes, ∀ b, x.boxOf = some b →
          ∀ g ∈ x.leafGeoms, b.contains g.boundingBox) ∧
        (∀ x ∈ t.nodes, ∀ b, x.boxOf = some b →
          ∀ c ∈ x.children, ∀ cb, c.boxOf = some cb → b.contains cb)) ∧
    (objs.length ≤ 16 → root.isNull = false →
      ∃ t, createBVHtree L root objs depth = Except.ok t) := by
  refine ⟨fun box => (overallBox_contains L hgrow objs box).2, ?_,
    fun h16 hroot => createBVHtree_returns L root objs depth hne h16 hroot⟩
  intro t ht
  have hb := createBVHtree_built ht
  obtain ⟨tb, htb, hall⟩ := built_root_contains hb
  exact ⟨tb, htb, fun g hg i => hall g hg i, (built_nodes_contain hb).1,
    (built_nodes_contain hb).2⟩

/-- Witness of C2 in the sample environment, on three sample objects. -/
theorem createBVHtree_boxes_contain_witness :
    ((∀ b o, (originEnv.combineBoxes b o).contains b ∧ (originEnv.combineBoxes b o).contains o) ∧
      [geomLow, geomPoint, geomHigh] ≠ []) ∧
    ∃ t, createBVHtree originEnv (newNode originEnv) [geomLow, geomPoint, geomHigh] 0
      = Except.ok t :=
  ⟨⟨fun b o => ⟨union_contains_left b o, union_contains_right b o⟩, by simp⟩,
    (createBVHtree_boxes_contain originEnv (newNode originEnv) [geomLow, geomPoint, geomHigh] 0
      (fun b o => ⟨union_contains_left b o, union_contains_right b o⟩) (by simp)).2.2
      (by simp) rfl⟩

/-- C8: whenever `createBVHtree` returns a tree for a non-empty list, every interior node of
the tree has a bounding volume equal to the union of its two children's bounding volumes
(componentwise minimum of their `minBound`, maximum of their `maxBound`), the recomputation
that follows the two recursive calls. On 1 to 16 objects and a `root` that is not `NULL` a
tree is returned. -/
theorem interior_box_union_of_children {α : Type} [LinearOrder α] (L : Env α)
    (root : BVHnode α) (objs : List (Geometry α)) (depth : Nat) (hne : objs ≠ []) :
    (∀ t, createBVHtree L root objs depth = Except.ok t →
      ∀ l r b g, BVHnode.node l r b g ∈ t.nodes → l.isNull = false →
        ∃ lb rb, l.boxOf = some lb ∧ r.boxOf = some rb ∧ b = lb.union rb) ∧
    (objs.length ≤ 16 → root.isNull = false →
      ∃ t, createBVHtree L root objs depth = Except.ok t) := by
  refine ⟨?_, fun h16 hroot => createBVHtree_returns L root objs depth hne h16 hroot⟩
  intro t ht
  exact built_interior_box_union (createBVHtree_built ht)

/-- Witness of C8: the tree of three sample objects, written out. -/
theorem interior_box_union_of_children_witness :
    [geomLow, geomPoint, geomHigh] ≠ [] ∧
    createBVHtree originEnv (newNode originEnv) [geomLow, geomPoint, geomHigh] 0 =
      Except.ok (BVHnode.node
        (BVHnode.node BVHnode.null BVHnode.null (cube 3 4) (some geomHigh))
        (BVHnode.node
          (BVHnode.node BVHnode.null BVHnode.null (cube 1 2) (some geomLow))
          (BVHnode.node BVHnode.null BVHnode.null (cube 5 5) (some geomPoint))
          (cube 1 5) none)
        (cube 1 5) none) ∧
    (∀ t, createBVHtree originEnv (newNode originEnv) [geomLow, geomPoint, geomHigh] 0
        = Except.ok t →
      ∀ l r b g, BVHnode.node l r b g ∈ t.nodes → l.isNull = false →
        ∃ lb rb, l.boxOf = some lb ∧ r.boxOf = some rb ∧ b = lb.union rb) :=
  ⟨by simp, rfl,
    (interior_box_union_of_children originEnv (newNode originEnv)
      [geomLow, geomPoint, geomHigh] 0 (by simp)).1⟩

/-! ## Claims about the render loop -/

/-- C7 (counterexample): a pixel with three samples of colours `(1, 1, 1)`, `(0, 0, 0)` and
`(0, 0, 0)`: the sum is `1` and the quotient `1 / 3.0f` is rounded to the `float`
`11184811 / 2^25`, so after the render loop the film cell is not the arithmetic mean `1/3`
of the three colours. -/
theorem raytraceLoop_pixel_not_exact_mean :
    (0 < thirdsRender.width ∧ 0 < thirdsRender.height ∧ thirdsRender.GetSamples 0 0 ≠ []) ∧
    (raytraceLoop thirdsRender blankFilm).pixels 0 0
      = (some (11184811 / 33554432), some (11184811 / 33554432), some (11184811 / 33554432)) ∧
    exactMean (sampledColors thirdsRender 0 0) = (some (1 / 3), some (1 / 3), some (1 / 3)) ∧
    (raytraceLoop thirdsRender blankFilm).pixels 0 0
      ≠ exactMean (sampledColors thirdsRender 0 0) := by
  have hp := (raytraceLoop_cell thirdsRender blankFilm 0 0 (by decide) (by decide)).1
  refine ⟨⟨by decide, by decide, by simp [thirdsRender]⟩, ?_, exactMean_thirds, ?_⟩
  · rw [hp, avgColor_thirds]
  · rw [hp, avgColor_thirds, exactMean_thirds]
    intro h
    have h1 := congrArg Prod.fst h
    simp only [Option.some.injEq] at h1
    norm_num at h1

/-- C7 (amended): for every pixel `(i, j)` with `i < width` and `j < height`, after the
sequential render loop the film cell `pixels[i][j]` is the `float` sum of the colours
`TraceRay(Raycast(s.x, s.y), 0)` of its samples, added in order to `vec3(0.0f)` with every
addition rounded to `float`, divided by `(float)k` with the quotient rounded to `float`; the
cell has been written exactly once; and with a single sample the cell is the colour of that
one ray. -/
theorem raytraceLoop_pixel_float_mean {Ray : Type} (R : RenderEnv Ray) (film : Film)
    (i j : Nat) (hi : i < R.width) (hj : j < R.height) :
    (raytraceLoop R film).pixels i j
      = Vec3.divCount
          (((R.GetSamples i j).map fun s => R.TraceRay (R.Raycast s.1 s.2) 0).foldl
            Vec3.add Vec3.zero)
          (R.GetSamples i j).length ∧
    (raytraceLoop R film).writes i j = film.writes i j + 1 ∧
    (∀ s, R.GetSamples i j = [s] →
      (raytraceLoop R film).pixels i j = R.TraceRay (R.Raycast s.1 s.2) 0) := by
  obtain ⟨hp, hw⟩ := raytraceLoop_cell R film i j hi hj
  refine ⟨?_, hw, ?_⟩
  · rw [hp]
    unfold avgColor sampledColors
    rw [List.length_map]
  · intro s hs
    rw [hp]
    exact avgColor_single R i j s hs

/-- Witness of C7 (amended) at pixel `(1, 2)` of the sample render setting. -/
theorem raytraceLoop_pixel_float_mean_witness :
    (1 < sampleRender.width ∧ 2 < sampleRender.height) ∧
    ((raytraceLoop sampleRender blankFilm).pixels 1 2
      = Vec3.divCount
          (((sampleRender.GetSamples 1 2).map
            fun s => sampleRender.TraceRay (sampleRender.Raycast s.1 s.2) 0).foldl
            Vec3.add Vec3.zero)
          (sampleRender.GetSamples 1 2).length ∧
    (raytraceLoop sampleRender blankFilm).writes 1 2 = blankFilm.writes 1 2 + 1 ∧
    (∀ s, sampleRender.GetSamples 1 2 = [s] →
      (raytraceLoop sampleRender blankFilm).pixels 1 2
        = sampleRender.TraceRay (sampleRender.Raycast s.1 s.2) 0)) :=
  ⟨⟨by decide, by decide⟩,
    raytraceLoop_pixel_float_mean sampleRender blankFilm 1 2 (by decide) (by decide)⟩

end BVH
